import Mathlib

/-!
Verification of the SignalR client core (rust_signalr_client).

Shallow embedding of the Rust sources:
  * `src/protocol/msgpack.rs`   — VarInt framing and MessagePack parsing
  * `src/completer/manual_future.rs` — one-shot completion primitive
  * `src/execution/{storage,invocation,enumerable}.rs` — pending-operation registry
  * `src/communication/reconnection.rs` — retry policies
  * `src/communication/client_tokio.rs` — reconnection controller

Bytes are modelled as `Nat` (values < 256 where produced by the code),
machine counters as `Nat` (no overflow occurs in the ranges exercised),
and fallible Rust functions as `Except String`.
-/

namespace SignalR

/-! ## VarInt framing (`src/protocol/msgpack.rs`) -/

/-- `encode_varint` from `src/protocol/msgpack.rs` lines 11–25:
LEB128 encoding, 7 payload bits per byte, MSB continuation bit. -/
def encode_varint (value : Nat) : List Nat :=
  let byte := value &&& 0x7F
  let rest := value >>> 7
  if rest > 0 then (byte ||| 0x80) :: encode_varint rest else [byte]
termination_by value
decreasing_by
  simp only [Nat.shiftRight_eq_div_pow] at *
  omega

/-- Loop body of `decode_varint` (lines 28–42): iterates over the bytes with
index `i`, accumulating `result` and `shift` exactly as the Rust loop does. -/
def decode_varint_go : List Nat → Nat → Nat → Nat → Except String (Nat × Nat)
  | [], _, _, _ => .error "Unexpected end of VarInt"
  | byte :: rest, i, result, shift =>
    if 5 ≤ i then .error "VarInt too long"
    else
      let result := result ||| ((byte &&& 0x7F) <<< shift)
      if byte &&& 0x80 == 0 then .ok (result, i + 1)
      else decode_varint_go rest (i + 1) result (shift + 7)

/-- `decode_varint` from `src/protocol/msgpack.rs` lines 28–42.
Returns `(value, bytes_consumed)`. -/
def decode_varint (data : List Nat) : Except String (Nat × Nat) :=
  decode_varint_go data 0 0 0

/-- `frame_message` (lines 45–49): VarInt length prefix followed by the payload. -/
def frame_message (payload : List Nat) : List Nat :=
  encode_varint payload.length ++ payload

/-- `decode_varint_go` consumes at least one and at most `data.length` bytes
past the starting index when it succeeds. -/
theorem decode_varint_go_consumed :
    ∀ (data : List Nat) (i result shift v c : Nat),
      decode_varint_go data i result shift = .ok (v, c) →
      i + 1 ≤ c ∧ c ≤ i + data.length := by
  intro data
  induction data with
  | nil => intro i result shift v c h; simp [decode_varint_go] at h
  | cons byte rest ih =>
    intro i result shift v c h
    simp only [decode_varint_go] at h
    split at h
    · exact absurd h (by simp)
    · split at h
      · simp only [Except.ok.injEq, Prod.mk.injEq] at h
        simp [← h.2]
      · have := ih (i + 1) _ _ v c h
        constructor <;> [omega; (simp only [List.length_cons]; omega)]

/-- When `decode_varint` succeeds it consumes between 1 and `data.length` bytes. -/
theorem decode_varint_consumed {data : List Nat} {v c : Nat}
    (h : decode_varint data = .ok (v, c)) : 1 ≤ c ∧ c ≤ data.length := by
  have := decode_varint_go_consumed data 0 0 0 v c h
  omega

/-- `split_framed_messages` (lines 52–65), phrased on the remaining suffix:
the Rust loop advances `offset`, which corresponds to recursing on
`data.drop (varint_size + len)`. -/
def split_framed_messages (data : List Nat) : Except String (List (List Nat)) :=
  if h : data = [] then .ok []
  else
    match h2 : decode_varint data with
    | .error e => .error e
    | .ok (len, varint_size) =>
      let rest := data.drop varint_size
      if len > rest.length then .error "Incomplete message in frame"
      else
        match split_framed_messages (rest.drop len) with
        | .error e => .error e
        | .ok msgs => .ok (rest.take len :: msgs)
termination_by data.length
decreasing_by
  have hc := decode_varint_consumed h2
  simp only [List.length_drop]
  have : data.length ≠ 0 := by
    intro hz; exact h (List.eq_nil_of_length_eq_zero hz)
  omega

/-! ### VarInt lemmas -/

/-- Unfolding equation for `encode_varint`. -/
theorem encode_varint_def (value : Nat) :
    encode_varint value =
      if value >>> 7 > 0 then ((value &&& 0x7F) ||| 0x80) :: encode_varint (value >>> 7)
      else [value &&& 0x7F] := by
  rw [encode_varint]

/-- Disjoint bitwise-or is addition: low bits below `2 ^ s` or-ed with a value
shifted up by `s`. -/
theorem lor_shiftLeft_eq_add {a s : Nat} (b : Nat) (h : a < 2 ^ s) :
    a ||| (b <<< s) = b * 2 ^ s + a := by
  apply Nat.eq_of_testBit_eq
  intro j
  rw [Nat.mul_comm b (2 ^ s), Nat.testBit_lor, Nat.testBit_shiftLeft,
    Nat.testBit_mul_pow_two_add b h j]
  by_cases hj : j < s
  · simp [hj, Nat.not_le_of_lt hj]
  · have hge : s ≤ j := Nat.le_of_not_lt hj
    have : a.testBit j = false :=
      Nat.testBit_lt_two_pow (Nat.lt_of_lt_of_le h (Nat.pow_le_pow_right (by omega) hge))
    simp [hj, hge, this]

theorem and_127_eq_mod (y : Nat) : y &&& 127 = y % 128 := by
  have : (127 : Nat) = 2 ^ 7 - 1 := by norm_num
  rw [this, Nat.and_pow_two_sub_one_eq_mod]

theorem and_128_of_lt {a : Nat} (h : a < 128) : a &&& 128 = 0 := by
  have hb : a.testBit 7 = false := by
    rw [Nat.testBit_to_div_mod]
    simp only [decide_eq_false_iff_not]
    norm_num
    omega
  have h2 := Nat.and_two_pow a 7
  norm_num [hb] at h2
  exact h2

theorem add_128_and_128 {a : Nat} (h : a < 128) : (128 + a) &&& 128 = 128 := by
  have hb : (128 + a).testBit 7 = true := by
    rw [Nat.testBit_to_div_mod]
    simp only [decide_eq_true_eq]
    norm_num
    omega
  have h2 := Nat.and_two_pow (128 + a) 7
  norm_num [hb] at h2
  exact h2

theorem lor_128_eq_add {a : Nat} (h : a < 128) : a ||| 128 = 128 + a := by
  have h2 := lor_shiftLeft_eq_add (a := a) (s := 7) 1 (show a < 2 ^ 7 by norm_num; omega)
  have h1 : (1 : Nat) <<< 7 = 128 := by decide
  rw [h1] at h2
  rw [h2]
  norm_num

/-- Decoding an encoded value: the loop invariant of `decode_varint_go` run on
`encode_varint x ++ suffix` from accumulator `acc` and shift `shift`. -/
theorem decode_varint_go_encode :
    ∀ (x : Nat) (suffix : List Nat) (i acc shift : Nat),
      acc < 2 ^ shift →
      i + (encode_varint x).length ≤ 5 →
      decode_varint_go (encode_varint x ++ suffix) i acc shift =
        .ok (acc + x * 2 ^ shift, i + (encode_varint x).length) := by
  intro x
  induction x using Nat.strong_induction_on with
  | _ x ih =>
    intro suffix i acc shift hacc hlen
    rw [encode_varint_def] at hlen ⊢
    have hx7 : x >>> 7 = x / 128 := by
      rw [Nat.shiftRight_eq_div_pow]
    by_cases hx : x >>> 7 > 0
    · rw [if_pos hx] at hlen ⊢
      have hxbig : 128 ≤ x := by
        rw [hx7] at hx
        by_contra hlt
        rw [Nat.div_eq_of_lt (by omega)] at hx
        exact absurd hx (by omega)
      simp only [List.cons_append, decode_varint_go, List.append_eq]
      have hi5 : ¬ 5 ≤ i := by
        simp only [List.length_cons] at hlen
        omega
      have hmod : x % 128 < 128 := Nat.mod_lt _ (by norm_num)
      have hbyte : x &&& 127 ||| 128 = 128 + x % 128 := by
        rw [and_127_eq_mod, lor_128_eq_add hmod]
      have hband : (x &&& 127 ||| 128) &&& 128 = 128 := by
        rw [hbyte]; exact add_128_and_128 hmod
      have hb7 : (x &&& 127 ||| 128) &&& 127 = x % 128 := by
        rw [hbyte, and_127_eq_mod]; omega
      rw [if_neg hi5, hb7, hband,
        if_neg (by decide : ¬ (((128 : Nat) == 0) = true)),
        lor_shiftLeft_eq_add (x % 128) hacc]
      have hrec := ih (x >>> 7) (by rw [hx7]; exact Nat.div_lt_self (by omega) (by norm_num))
        suffix (i + 1) (x % 128 * 2 ^ shift + acc) (shift + 7)
        (by
          have h1 : x % 128 * 2 ^ shift + acc < (x % 128 + 1) * 2 ^ shift := by
            rw [Nat.add_mul, Nat.one_mul]; omega
          have h2 : (x % 128 + 1) * 2 ^ shift ≤ 128 * 2 ^ shift :=
            Nat.mul_le_mul_right _ (by omega)
          have h3 : (2 : Nat) ^ (shift + 7) = 2 ^ shift * 128 := by
            rw [Nat.pow_add]
          rw [h3]; omega)
        (by simp only [List.length_cons] at hlen; omega)
      rw [hrec]
      simp only [Except.ok.injEq, Prod.mk.injEq, List.length_cons]
      refine ⟨?_, by omega⟩
      have h27 : (2 : Nat) ^ 7 = 128 := by norm_num
      rw [hx7, Nat.pow_add, h27]
      have hsplit : x % 128 + 128 * (x / 128) = x := Nat.mod_add_div x 128
      conv_rhs => rw [← hsplit]
      ring
    · rw [if_neg hx] at hlen ⊢
      have hxsmall : x < 128 := by
        rw [hx7] at hx
        by_contra hge
        exact hx (Nat.div_pos (by omega) (by norm_num))
      simp only [List.cons_append, decode_varint_go, List.append_eq]
      have hi5 : ¬ 5 ≤ i := by simp only [List.length_singleton] at hlen; omega
      have hxx : x &&& 127 = x := by
        rw [and_127_eq_mod, Nat.mod_eq_of_lt hxsmall]
      rw [if_neg hi5, hxx, and_128_of_lt hxsmall,
        if_pos (by decide : (((0 : Nat) == 0) = true)), hxx,
        lor_shiftLeft_eq_add x hacc]
      simp only [List.length_singleton]
      rw [Nat.add_comm (x * 2 ^ shift) acc]

/-- `encode_varint` produces at most `k` bytes for values below `2 ^ (7 * k)`. -/
theorem encode_varint_length_le :
    ∀ (k x : Nat), 0 < k → x < 2 ^ (7 * k) → (encode_varint x).length ≤ k := by
  intro k
  induction k with
  | zero => omega
  | succ k ih =>
    intro x _ hx
    rw [encode_varint_def]
    by_cases hx7 : x >>> 7 > 0
    · rw [if_pos hx7]
      simp only [List.length_cons]
      have hk : 0 < k := by
        by_contra hk0
        have hk0 : k = 0 := by omega
        subst hk0
        rw [Nat.shiftRight_eq_div_pow] at hx7
        norm_num at hx
        rw [Nat.div_eq_of_lt (by omega)] at hx7
        exact absurd hx7 (by omega)
      have hdiv : x >>> 7 < 2 ^ (7 * k) := by
        rw [Nat.shiftRight_eq_div_pow]
        have : (2 : Nat) ^ (7 * (k + 1)) = 2 ^ (7 * k) * 2 ^ 7 := by
          rw [← Nat.pow_add]; ring_nf
        apply Nat.div_lt_of_lt_mul
        rw [Nat.mul_comm]
        omega
      have := ih (x >>> 7) hk hdiv
      omega
    · rw [if_neg hx7]
      simp only [List.length_singleton]
      omega

/-- **C5.** For every integer `x` in `[0, 2^31 - 1]`,
`decode_varint (encode_varint x)` succeeds and returns `(x, n)` where `n` is
exactly the byte length of `encode_varint x`. -/
theorem varint_roundtrip (x : Nat) (hx : x < 2 ^ 31) :
    decode_varint (encode_varint x) = .ok (x, (encode_varint x).length) := by
  have hlen : (encode_varint x).length ≤ 5 :=
    encode_varint_length_le 5 x (by norm_num) (by norm_num at hx ⊢; omega)
  have h := decode_varint_go_encode x [] 0 0 0 (by norm_num) (by omega)
  simpa using h

/-- Witness for C5 at the concrete input 5248 (matches the repository's own
`test_varint_known_values`). -/
theorem varint_roundtrip_witness :
    5248 < 2 ^ 31 ∧
      decode_varint (encode_varint 5248) = .ok (5248, (encode_varint 5248).length) :=
  ⟨by norm_num, varint_roundtrip 5248 (by norm_num)⟩

/-! ### Framing lemmas -/

theorem encode_varint_length_pos (x : Nat) : 0 < (encode_varint x).length := by
  rw [encode_varint_def]
  by_cases hx : x >>> 7 > 0 <;> simp [hx]

/-- Decoding a buffer that starts with an encoded value below `2 ^ 35`
returns that value and its encoded length, regardless of what follows. -/
theorem decode_varint_of_framed (n : Nat) (hn : n < 2 ^ 35) (suffix : List Nat) :
    decode_varint (encode_varint n ++ suffix) = .ok (n, (encode_varint n).length) := by
  have hlen : (encode_varint n).length ≤ 5 :=
    encode_varint_length_le 5 n (by norm_num) (by norm_num at hn ⊢; omega)
  have h := decode_varint_go_encode n suffix 0 0 0 (by norm_num) (by omega)
  simpa using h

theorem split_framed_messages_eq_error (data : List Nat) (hne : data ≠ []) (e : String)
    (hd : decode_varint data = .error e) :
    split_framed_messages data = .error e := by
  rw [split_framed_messages, dif_neg hne]
  split
  · rename_i e2 heq
    rw [hd] at heq
    cases heq
    rfl
  · rename_i len c heq
    rw [hd] at heq
    cases heq

theorem split_framed_messages_eq_ok (data : List Nat) (hne : data ≠ []) (len c : Nat)
    (hd : decode_varint data = .ok (len, c)) :
    split_framed_messages data =
      if len > (data.drop c).length then .error "Incomplete message in frame"
      else
        match split_framed_messages ((data.drop c).drop len) with
        | .error e => .error e
        | .ok msgs => .ok ((data.drop c).take len :: msgs) := by
  rw [split_framed_messages, dif_neg hne]
  split
  · rename_i e2 heq
    rw [hd] at heq
    cases heq
  · rename_i len2 c2 heq
    rw [hd] at heq
    cases heq
    rfl

theorem frame_message_ne_nil_append (m tail : List Nat) : frame_message m ++ tail ≠ [] := by
  have hpos := encode_varint_length_pos m.length
  intro h
  have hlen := congrArg List.length h
  rw [List.length_append, frame_message, List.length_append] at hlen
  simp only [List.length_nil] at hlen
  omega

/-- Splitting a buffer that starts with one framed message peels it off. -/
theorem split_framed_messages_cons (m tail : List Nat) (hm : m.length < 2 ^ 35) :
    split_framed_messages (frame_message m ++ tail) =
      match split_framed_messages tail with
      | .error e => .error e
      | .ok msgs => .ok (m :: msgs) := by
  have hassoc : frame_message m ++ tail = encode_varint m.length ++ (m ++ tail) := by
    simp [frame_message]
  have hd : decode_varint (frame_message m ++ tail) =
      .ok (m.length, (encode_varint m.length).length) := by
    rw [hassoc]
    exact decode_varint_of_framed m.length hm (m ++ tail)
  rw [split_framed_messages_eq_ok _ (frame_message_ne_nil_append m tail) _ _ hd]
  rw [hassoc, List.drop_left, List.length_append]
  rw [if_neg (by omega)]
  rw [List.take_left, List.drop_left]

/-- **C6 (amended).** For payloads `m1`, `m2` whose lengths fit in a five-byte
VarInt prefix (length `< 2 ^ 35`), `split_framed_messages` applied to
`frame_message m1 ++ frame_message m2` returns exactly `[m1, m2]`.
The bound is necessary: see `split_two_frames_counterexample`. -/
theorem split_two_frames (m1 m2 : List Nat)
    (h1 : m1.length < 2 ^ 35) (h2 : m2.length < 2 ^ 35) :
    split_framed_messages (frame_message m1 ++ frame_message m2) = .ok [m1, m2] := by
  rw [split_framed_messages_cons m1 (frame_message m2) h1]
  have hm2 : split_framed_messages (frame_message m2) = .ok [m2] := by
    have := split_framed_messages_cons m2 [] h2
    rw [List.append_nil] at this
    rw [this]
    rw [show split_framed_messages [] = .ok [] from by rw [split_framed_messages]; rfl]
  rw [hm2]

/-- Witness for the amended C6 at concrete payloads (the repository's own
`test_frame_split_roundtrip` inputs). -/
theorem split_two_frames_witness :
    ([0x91, 0x06] : List Nat).length < 2 ^ 35 ∧
      ([0x92, 0x01, 0x80] : List Nat).length < 2 ^ 35 ∧
      split_framed_messages (frame_message [0x91, 0x06] ++ frame_message [0x92, 0x01, 0x80]) =
        .ok [[0x91, 0x06], [0x92, 0x01, 0x80]] :=
  ⟨by norm_num, by norm_num,
    split_two_frames [0x91, 0x06] [0x92, 0x01, 0x80] (by norm_num) (by norm_num)⟩

theorem encode_varint_two_pow_35 : encode_varint (2 ^ 35) = [128, 128, 128, 128, 128, 1] := by
  simp [encode_varint_def]
  decide

theorem decode_varint_six_bytes (rest : List Nat) :
    decode_varint ([128, 128, 128, 128, 128, 1] ++ rest) = .error "VarInt too long" := by
  simp [decode_varint, decode_varint_go]

/-- For any payload of exactly `2 ^ 35` bytes, splitting the concatenation of
two framings fails with "VarInt too long". -/
theorem split_two_frames_fails_of_huge (m : List Nat) (hm : m.length = 2 ^ 35) :
    split_framed_messages (frame_message m ++ frame_message m) = .error "VarInt too long" := by
  apply split_framed_messages_eq_error _ (frame_message_ne_nil_append _ _)
  have hassoc : frame_message m ++ frame_message m =
      encode_varint m.length ++ (m ++ frame_message m) := by
    rw [frame_message, List.append_assoc]
  rw [hassoc, hm, encode_varint_two_pow_35]
  exact decode_varint_six_bytes _

/-- **C6 counterexample.** The claim as stated quantifies over *every* pair of
payloads; it fails for a payload of `2 ^ 35` bytes: `encode_varint` emits a
six-byte length prefix, which `decode_varint` rejects ("VarInt too long"),
so `split_framed_messages` errors instead of returning the two payloads. -/
theorem split_two_frames_counterexample :
    split_framed_messages
        (frame_message (List.replicate (2 ^ 35) 0) ++ frame_message (List.replicate (2 ^ 35) 0)) ≠
      .ok [List.replicate (2 ^ 35) 0, List.replicate (2 ^ 35) 0] := by
  intro hcontra
  rw [split_two_frames_fails_of_huge _ (List.length_replicate _ _)] at hcontra
  cases hcontra

/-! ## One-shot completer (`src/completer/manual_future.rs`)

`ManualFuture` / `ManualFutureCompleter` share an `Arc<Mutex<State<T>>>`.
The shared state is embedded directly; wakers are opaque identifiers
(`Nat`), and the runtime's `Waker::will_wake` is an abstract relation.
Each operation returns the new shared state plus the list of wakers it
woke; a Rust panic is modelled as `Except.error`. -/

/-- `State<T>` from `src/completer/manual_future.rs` lines 6–10. -/
inductive FState (T : Type) : Type
  | Incomplete : FState T
  | Waiting : Nat → FState T
  | Complete : Option T → FState T
deriving DecidableEq, Repr

/-- The panic message of `ManualFutureCompleter::complete` (line 61). -/
def doubleCompletePanicMsg : String :=
  "Future is completed or cancelled already. This happened because complete method is called more than once or after cancel is called. If not sure, study is_completed before calling complete."

/-- `ManualFutureCompleter::complete` (lines 55–63): replaces the state with
`Complete(Some(value))`; wakes the waiter if one was installed; panics if the
state was already `Complete`. -/
def completerComplete {T : Type} (s : FState T) (value : T) :
    Except String (FState T × List Nat) :=
  match s with
  | .Incomplete => .ok (.Complete (some value), [])
  | .Waiting w => .ok (.Complete (some value), [w])
  | .Complete _ => .error doubleCompletePanicMsg

/-- `ManualFutureCompleter::cancel` (lines 65–72): replaces any state with
`Complete(None)`; the match arm is a wildcard that does nothing, so no waker
is ever woken and no state panics. -/
def completerCancel {T : Type} (_ : FState T) : FState T × List Nat :=
  (.Complete none, [])

/-- `Poll` result of `ManualFuture::poll`. -/
inductive PollResult (T : Type) : Type
  | Ready : T → PollResult T
  | Pending : PollResult T
deriving DecidableEq, Repr

/-- `ManualFuture::poll` (lines 92–114). `willWake w w2` models
`w.will_wake(w2)` of the runtime. `Complete(Some v)` is taken (`v.take()`),
leaving `Complete(None)`; polling `Complete(None)` logs an error and stays
`Pending`. -/
def futurePoll {T : Type} (willWake : Nat → Nat → Bool) (s : FState T) (waker : Nat) :
    FState T × PollResult T :=
  match s with
  | .Incomplete => (.Waiting waker, .Pending)
  | .Waiting w => if willWake w waker then (.Waiting w, .Pending) else (.Waiting waker, .Pending)
  | .Complete (some v) => (.Complete none, .Ready v)
  | .Complete none => (.Complete none, .Pending)

/-- Repeatedly poll the future with a sequence of wakers, collecting the
results; models a consumer that keeps polling. -/
def pollMany {T : Type} (willWake : Nat → Nat → Bool) :
    List Nat → FState T → FState T × List (PollResult T)
  | [], s => (s, [])
  | waker :: rest, s =>
    let step := futurePoll willWake s waker
    let tail := pollMany willWake rest step.1
    (tail.1, step.2 :: tail.2)

/-- **C7.** `complete` on an already-`Complete` shared state (reached by a
prior `complete` or `cancel` through this completer or any clone sharing the
state) panics; `complete` on `Incomplete` (Empty) or `Waiting` transitions the
state to `Complete (some value)` without panicking, waking the installed
waiter if any. -/
theorem complete_double_panics {T : Type} (v : T) (o : Option T) (w : Nat) (s : FState T) :
    completerComplete (FState.Complete o) v = .error doubleCompletePanicMsg ∧
    completerComplete (FState.Incomplete : FState T) v = .ok (.Complete (some v), []) ∧
    completerComplete (FState.Waiting w : FState T) v = .ok (.Complete (some v), [w]) ∧
    completerComplete (completerCancel s).1 v = .error doubleCompletePanicMsg :=
  ⟨rfl, rfl, rfl, rfl⟩

/-- **C10.** `cancel` replaces any state with `Complete none` waking nobody;
a poll of the `Complete none` state returns `Pending` and leaves the state
unchanged, so a parked consumer is never woken and a consumer that keeps
polling (any sequence of wakers) only ever observes `Pending`. -/
theorem cancel_never_resolves {T : Type} (willWake : Nat → Nat → Bool)
    (s : FState T) (waker : Nat) (wakers : List Nat) :
    completerCancel s = (FState.Complete none, []) ∧
    futurePoll willWake (FState.Complete (none : Option T)) waker =
      (FState.Complete none, .Pending) ∧
    pollMany willWake wakers ((completerCancel s).1) =
      (FState.Complete none, wakers.map fun _ => PollResult.Pending) := by
  refine ⟨rfl, rfl, ?_⟩
  show pollMany willWake wakers (FState.Complete none) = _
  induction wakers with
  | nil => rfl
  | cons wk rest ih =>
    simp only [pollMany, futurePoll, ih, List.map_cons]

/-! ## Reconnection policies (`src/communication/reconnection.rs`)

`Duration` is modelled as `Nat` (its additive/ordered structure is all the
policies use); `retry_count` and `elapsed_milliseconds` likewise. -/

/-- `NoReconnectPolicy` (lines 10–17): never retries. -/
structure NoReconnectPolicy : Type

/-- `ConstantDelayPolicy` (lines 19–29). -/
structure ConstantDelayPolicy : Type where
  delay : Nat
  max_attempts : Option Nat

/-- `LinearBackoffPolicy` (lines 42–59). -/
structure LinearBackoffPolicy : Type where
  initial_delay : Nat
  increment : Nat
  max_delay : Option Nat
  max_attempts : Option Nat

/-- The attempt-cap guard shared by the policies: the early
`if let Some(max) = self.max_attempts { if retry_count >= max { return None } }`. -/
def attemptsExhausted (max_attempts : Option Nat) (retry_count : Nat) : Bool :=
  match max_attempts with
  | some max => retry_count ≥ max
  | none => false

/-- `ConstantDelayPolicy::next_retry_delay` (lines 31–40). -/
def ConstantDelayPolicy.next_retry_delay (p : ConstantDelayPolicy)
    (retry_count : Nat) (_elapsed_milliseconds : Nat) : Option Nat :=
  if attemptsExhausted p.max_attempts retry_count then none
  else some p.delay

/-- `LinearBackoffPolicy::next_retry_delay` (lines 61–79). -/
def LinearBackoffPolicy.next_retry_delay (p : LinearBackoffPolicy)
    (retry_count : Nat) (_elapsed_milliseconds : Nat) : Option Nat :=
  if attemptsExhausted p.max_attempts retry_count then none
  else
    let delay := p.initial_delay + p.increment * retry_count
    match p.max_delay with
    | some max_delay => if delay > max_delay then some max_delay else some delay
    | none => some delay

/-- `NoReconnectPolicy::next_retry_delay` (lines 13–17). -/
def NoReconnectPolicy.next_retry_delay (_ : NoReconnectPolicy)
    (_retry_count : Nat) (_elapsed_milliseconds : Nat) : Option Nat :=
  none

/-- **C8.** For every `retry_count` and elapsed time: the constant policy
yields `some delay` below the attempt cap (or always, when uncapped) and
`none` at or past it; the linear policy yields
`some (min (initial_delay + increment * retry_count) max_delay)` below the
cap (uncapped delay when `max_delay` is unset) and `none` at or past it;
`NoReconnectPolicy` always yields `none`. -/
theorem retry_policy_behavior (cp : ConstantDelayPolicy) (lp : LinearBackoffPolicy)
    (np : NoReconnectPolicy) (retry_count elapsed : Nat) :
    cp.next_retry_delay retry_count elapsed =
      (match cp.max_attempts with
       | some max => if retry_count < max then some cp.delay else none
       | none => some cp.delay) ∧
    lp.next_retry_delay retry_count elapsed =
      (match lp.max_attempts with
       | some max =>
         if retry_count < max then
           some (match lp.max_delay with
                 | some max_delay =>
                   min (lp.initial_delay + lp.increment * retry_count) max_delay
                 | none => lp.initial_delay + lp.increment * retry_count)
         else none
       | none =>
         some (match lp.max_delay with
               | some max_delay =>
                 min (lp.initial_delay + lp.increment * retry_count) max_delay
               | none => lp.initial_delay + lp.increment * retry_count)) ∧
    np.next_retry_delay retry_count elapsed = none := by
  refine ⟨?_, ?_, rfl⟩
  · rw [ConstantDelayPolicy.next_retry_delay, attemptsExhausted.eq_def]
    rcases hc : cp.max_attempts with _ | max
    · simp
    · by_cases hlt : retry_count < max
      · simp [hlt, Nat.not_le_of_lt hlt]
      · simp [hlt, Nat.le_of_not_lt hlt]
  · rw [LinearBackoffPolicy.next_retry_delay, attemptsExhausted.eq_def]
    have hmin : ∀ d max_delay : Nat,
        (if d > max_delay then some max_delay else some d) = some (min d max_delay) := by
      intro d max_delay
      by_cases hd : d > max_delay
      · simp [hd, Nat.min_def, Nat.not_le_of_lt hd]
      · simp [hd, Nat.min_def, Nat.le_of_not_lt hd]
    rcases hl : lp.max_attempts with _ | max
    · simp only [Bool.false_eq_true, if_false]
      rcases hd : lp.max_delay with _ | max_delay
      · rfl
      · exact hmin _ _
    · simp only [decide_eq_true_eq]
      by_cases hlt : retry_count < max
      · rw [if_neg (by omega : ¬ max ≤ retry_count), if_pos hlt]
        rcases hd : lp.max_delay with _ | max_delay
        · rfl
        · exact hmin _ _
      · rw [if_pos (by omega : max ≤ retry_count), if_neg hlt]

/-! ## Reconnection controller (`src/communication/client_tokio.rs`)

`connect_to_server` performs network I/O; its outcome is a parameter
(`Except String Unit`, indexed by retry count for the retry loop). The
`Weak<Mutex<ConnectionState>>` is modelled as always upgradable (the client
alive); state transitions are sequential, matching the mutex discipline. -/

/-- `DisconnectionReason` (lines 191–197). -/
inductive DisconnectionReason : Type
  | RemoteClosed | LocalClosed | NeverOpened | Reconnecting
deriving DecidableEq, Repr

/-- `ConnectionState` (lines 199–202); the live connection carried by
`Connected` is irrelevant to the control flow modelled here. -/
inductive ConnectionState : Type
  | NotConnected (reason : DisconnectionReason)
  | Connected
deriving DecidableEq, Repr

/-- Rust `str::contains` on the error message (used at line 106). -/
def strContains (s pat : String) : Bool :=
  s.toList.tails.any fun t => pat.toList.isPrefixOf t

/-- Result of one `ReconnectionContext::reconnect` call: the returned
`Result`, the connection state afterwards, and whether `connect_to_server`
was invoked at all. -/
structure ReconnectOutcome : Type where
  result : Except String Unit
  state : ConnectionState
  attempted : Bool
deriving Repr

/-- `ReconnectionContext::reconnect` (lines 29–84): returns Ok if already
connected; errors without attempting if locally closed; otherwise sets the
state to `Reconnecting`, attempts the connection, and promotes to
`Connected` on success or `NotConnected RemoteClosed` on failure. -/
def ReconnectionContext.reconnect (state : ConnectionState)
    (connectOutcome : Except String Unit) : ReconnectOutcome :=
  match state with
  | .Connected => ⟨.ok (), state, false⟩
  | .NotConnected .LocalClosed => ⟨.error "Client was locally disconnected", state, false⟩
  | .NotConnected _ =>
    match connectOutcome with
    | .ok () => ⟨.ok (), .Connected, true⟩
    | .error e => ⟨.error e, .NotConnected .RemoteClosed, true⟩

/-- Cumulative outcome of `reconnect_with_policy`: final result, final
state, and how many `connect_to_server` attempts were made. -/
structure PolicyLoopOutcome : Type where
  result : Except String Unit
  state : ConnectionState
  connectAttempts : Nat
deriving Repr

/-- The retry loop of `ReconnectionContext::reconnect_with_policy`
(lines 88–116), with explicit fuel for the unbounded `loop`. The policy is
consulted with the current retry count and an abstract elapsed-time reading;
`none` exhausts the attempts, an error mentioning "locally disconnected"
aborts, any other error increments `retry_count` and continues. -/
def reconnect_with_policy_go (policy : Nat → Nat → Option Nat)
    (elapsed : Nat → Nat) (attempts : Nat → Except String Unit) :
    Nat → ConnectionState → Nat → PolicyLoopOutcome
  | _, state, 0 => ⟨.error "out of fuel", state, 0⟩
  | retry_count, state, fuel + 1 =>
    match policy retry_count (elapsed retry_count) with
    | none => ⟨.error "Reconnection attempts exhausted", state, 0⟩
    | some _ =>
      let step := ReconnectionContext.reconnect state (attempts retry_count)
      let cost : Nat := if step.attempted then 1 else 0
      match step.result with
      | .ok () => ⟨.ok (), step.state, cost⟩
      | .error e =>
        if strContains e "locally disconnected" then ⟨.error e, step.state, cost⟩
        else
          let rest := reconnect_with_policy_go policy elapsed attempts
            (retry_count + 1) step.state fuel
          ⟨rest.result, rest.state, cost + rest.connectAttempts⟩

/-- `ReconnectionContext::reconnect_with_policy` (lines 88–116): the loop
starting from `retry_count = 0`. -/
def ReconnectionContext.reconnect_with_policy (policy : Nat → Nat → Option Nat)
    (elapsed : Nat → Nat) (attempts : Nat → Except String Unit)
    (state : ConnectionState) (fuel : Nat) : PolicyLoopOutcome :=
  reconnect_with_policy_go policy elapsed attempts 0 state fuel

theorem strContains_locally_disconnected :
    strContains "Client was locally disconnected" "locally disconnected" = true := by
  decide

/-- **C9.** In state `NotConnected LocalClosed`, `reconnect` returns the
"Client was locally disconnected" error without attempting a connection and
leaves the state unchanged; `reconnect_with_policy` never attempts a
connection either, and — whenever the policy grants a first attempt —
aborts its loop immediately (any fuel ≥ 1) with that same error. -/
theorem local_closed_aborts_reconnection (policy : Nat → Nat → Option Nat)
    (elapsed : Nat → Nat) (attempts : Nat → Except String Unit)
    (connectOutcome : Except String Unit) (fuel : Nat) (hfuel : 1 ≤ fuel) :
    ReconnectionContext.reconnect (.NotConnected .LocalClosed) connectOutcome =
      ⟨.error "Client was locally disconnected", .NotConnected .LocalClosed, false⟩ ∧
    (ReconnectionContext.reconnect_with_policy policy elapsed attempts
        (.NotConnected .LocalClosed) fuel).connectAttempts = 0 ∧
    ((policy 0 (elapsed 0)).isSome = true →
      ReconnectionContext.reconnect_with_policy policy elapsed attempts
          (.NotConnected .LocalClosed) fuel =
        ⟨.error "Client was locally disconnected", .NotConnected .LocalClosed, 0⟩) := by
  obtain ⟨fuel, rfl⟩ : ∃ k, fuel = k + 1 := ⟨fuel - 1, by omega⟩
  refine ⟨rfl, ?_, ?_⟩ <;>
    rw [ReconnectionContext.reconnect_with_policy, reconnect_with_policy_go]
  · rcases policy 0 (elapsed 0) with _ | d
    · rfl
    · simp only [ReconnectionContext.reconnect, strContains_locally_disconnected, if_true]
      rfl
  · intro hsome
    cases hp : policy 0 (elapsed 0) with
    | none => rw [hp] at hsome; cases hsome
    | some d =>
      simp only [ReconnectionContext.reconnect, strContains_locally_disconnected, if_true]
      rfl

/-- Witness for C9 at a concrete policy (constant delay, attempts allowed),
fuel 3, with a connection attempt that would succeed if ever made. -/
theorem local_closed_aborts_reconnection_witness :
    ReconnectionContext.reconnect_with_policy (fun _ _ => some 5) (fun _ => 0)
        (fun _ => .ok ()) (.NotConnected .LocalClosed) 3 =
      ⟨.error "Client was locally disconnected", .NotConnected .LocalClosed, 0⟩ :=
  (local_closed_aborts_reconnection (fun _ _ => some 5) (fun _ => 0) (fun _ => .ok ())
    (.ok ()) 3 (by norm_num)).2.2 rfl

/-! ## MessagePack message parsing (`src/protocol/msgpack.rs`)

`rmpv::Value` (external crate) is embedded as `MPValue`; the byte-level
MessagePack codec is the external `rmpv::decode`/`encode`, so a
`Binary` payload carries the already-decoded value. Floating-point and
extension payloads are opaque here (`other`): the registry paths only
inspect values through `as_str` and `as_u64`, which reject them. -/

inductive MPValue : Type
  | nil : MPValue
  | bool (b : Bool) : MPValue
  | int (i : Int) : MPValue
  | str (s : String) : MPValue
  | bin (bytes : List Nat) : MPValue
  | array (items : List MPValue) : MPValue
  | map (entries : List (MPValue × MPValue)) : MPValue
  | other : MPValue

/-- `rmpv::Value::as_str`. -/
def MPValue.as_str : MPValue → Option String
  | .str s => some s
  | _ => none

/-- `rmpv::Value::as_u64`: defined for non-negative integers. -/
def MPValue.as_u64 : MPValue → Option Nat
  | .int i => if 0 ≤ i then some i.toNat else none
  | _ => none

/-- `parse_msgpack_message` (lines 158–166): requires the decoded value to be
an array and returns its items. -/
def parse_msgpack_message (data : MPValue) : Except String (List MPValue) :=
  match data with
  | .array items => .ok items
  | _ => .error "MessagePack message is not an array"

/-- `MsgpackCompletion` (lines 197–201). `result_kind` is `as u8` of the
decoded integer, hence the `% 256`. -/
structure MsgpackCompletion : Type where
  invocation_id : String
  result_kind : Nat
  payload : Option MPValue

/-- `parse_completion` (lines 206–215). -/
def parse_completion (items : List MPValue) : Except String MsgpackCompletion :=
  if items.length < 4 then .error "Completion array too short"
  else
    match (items.getD 2 .nil).as_str with
    | none => .error "Invalid invocation_id"
    | some invocation_id =>
      match (items.getD 3 .nil).as_u64 with
      | none => .error "Invalid ResultKind"
      | some rk =>
        .ok ⟨invocation_id, rk % 256,
          if 4 < items.length then some (items.getD 4 .nil) else none⟩

/-- `MsgpackStreamItem` (lines 218–221). -/
structure MsgpackStreamItem : Type where
  invocation_id : String
  item : MPValue

/-- `parse_stream_item` (lines 225–233). -/
def parse_stream_item (items : List MPValue) : Except String MsgpackStreamItem :=
  if items.length < 4 then .error "StreamItem array too short"
  else
    match (items.getD 2 .nil).as_str with
    | none => .error "Invalid invocation_id"
    | some invocation_id => .ok ⟨invocation_id, items.getD 3 .nil⟩

/-- `MsgpackInvocation` (lines 169–173). -/
structure MsgpackInvocation : Type where
  invocation_id : Option String
  target : String
  arguments : List MPValue

/-- `parse_invocation` (lines 177–194). -/
def parse_invocation (items : List MPValue) : Except String MsgpackInvocation :=
  if items.length < 5 then .error "Invocation array too short"
  else
    match h2 : items.getD 2 .nil with
    | .nil => parse_invocation_rest items none
    | .str s => parse_invocation_rest items (some s)
    | _ => .error "Invalid invocation_id type"
where
  /-- target and arguments extraction shared by the id cases. -/
  parse_invocation_rest (items : List MPValue) (invocation_id : Option String) :
      Except String MsgpackInvocation :=
    match (items.getD 3 .nil).as_str with
    | none => .error "Invalid target"
    | some target =>
      match items.getD 4 .nil with
      | .array args => .ok ⟨invocation_id, target, args⟩
      | _ => .error "Invalid arguments"

/-! ## Pending operations (`src/execution/*.rs`)

The registry is generic in the registered result type in the source (each
entry erases its own `R` behind `UpdatableAction`); the embedding fixes one
result type `R` and an abstract decoder `dec` standing for
`value_to_type::<R>` (whose serde internals are the external `rmp_serde`).
`src/protocol/messages.rs` (JSON text parsing) is not under `src/`;
following the spec, its parse functions are abstract parameters bundled in
`TextProtocol`. -/

/-- `MessageType` from `src/protocol/negotiate.rs` (not under `src/`; the
variant set is fixed by `read_message_type` in `src/protocol/msgpack.rs`
lines 70–87). -/
inductive MessageType : Type
  | Invocation | StreamItem | Completion | StreamInvocation
  | CancelInvocation | Ping | Close | Other
deriving DecidableEq, Repr

/-- `MessagePayload` (`src/protocol/hub_protocol.rs` lines 1–10): `Binary`
carries the rmpv-decoded value. -/
inductive MessagePayload : Type
  | Text (s : String)
  | Binary (data : MPValue)

/-- Modelled from the spec: result of `MessageParser::parse_message::<Completion<R>>`
(`src/protocol/messages.rs`/`invoke.rs` are not under `src/`). A text
completion is distinguished by the presence of `error` or `result` fields
(spec §3): `result` answers `is_result`, `err` carries the server message,
`void` has neither. -/
inductive TextCompletion (R : Type) : Type
  | result (r : R)
  | err (msg : String)
  | void

/-- Modelled from the spec: the JSON text-mode parse functions of
`MessageParser` (`src/protocol/messages.rs` is not under `src/`); only their
result shapes matter to the registry. `Except.error` is a parse failure. -/
structure TextProtocol (R : Type) : Type where
  /-- `parse_message::<Invocation>(s).map(|inv| inv.get_target())` -/
  invocationTarget : String → Except String String
  /-- `parse_message::<PossibleInvocation>(s).map(|p| p.invocation_id)` -/
  possibleInvocationId : String → Except String (Option String)
  /-- `parse_message::<Completion<R>>(s)`, `none` when unparseable -/
  completionOf : String → Option (TextCompletion R)
  /-- `parse_message::<StreamItem<R>>(s).map(|si| si.item)`, `none` when unparseable -/
  streamItemOf : String → Option R

/-- `InvocationAction<R>` (`src/execution/invocation.rs` lines 9–12):
`completerPresent` is `self.completer.is_some()`, `shared` the contents of
the completer's `Arc<Mutex<State<R>>>` (shared with the waiter's
`ManualFuture`). -/
structure SingleEntry (R : Type) : Type where
  invocation_id : String
  completerPresent : Bool
  shared : FState R
deriving DecidableEq

/-- `InvocationAction::complete` (lines 30–36): `self.completer.take().unwrap()`
panics when the completer is gone; then `ManualFutureCompleter::complete`
runs on the shared state. -/
def SingleEntry.complete {R : Type} (e : SingleEntry R) (result : R) :
    Except String (SingleEntry R) :=
  if e.completerPresent then
    match completerComplete e.shared result with
    | .ok (sh, _woken) => .ok ⟨e.invocation_id, false, sh⟩
    | .error msg => .error msg
  else .error "called Option::unwrap on a None value"

/-- `InvocationAction::dispose_internal` (lines 38–44), also run by `Drop`:
takes the completer if present and cancels it. -/
def SingleEntry.dispose_internal {R : Type} (e : SingleEntry R) : SingleEntry R :=
  if e.completerPresent then ⟨e.invocation_id, false, (completerCancel e.shared).1⟩
  else e

/-- `EnumerableAction<R>` (`src/execution/enumerable.rs` lines 8–12) together
with the `ManualStream` channel it completes into (`src/completer/mod.rs` is
not under `src/`; modelled from the spec §4.1: a buffered channel with a
closed flag). -/
structure StreamEntry (R : Type) : Type where
  invocation_id : String
  buffer : List R
  closed : Bool
  completed : Bool
deriving DecidableEq

/-- Modelled from the spec: `ManualStreamCompleter::push` enqueues. -/
def StreamEntry.push {R : Type} (e : StreamEntry R) (item : R) : StreamEntry R :=
  { e with buffer := e.buffer ++ [item] }

/-- Modelled from the spec: `ManualStreamCompleter::close` marks end-of-stream. -/
def StreamEntry.close {R : Type} (e : StreamEntry R) : StreamEntry R :=
  { e with closed := true }

/-- `EnumerableAction::dispose_internal` (lines 25–28), also run by `Drop`:
sets `completed` and closes the channel. -/
def StreamEntry.dispose_internal {R : Type} (e : StreamEntry R) : StreamEntry R :=
  { e with completed := true, closed := true }

/-- A type-erased registry entry (`Box<dyn UpdatableAction>`,
`src/execution/actions.rs`). `callbackA` models `CallbackAction`
(`src/execution/callback.rs`): the stored closure and client are opaque, the
entry records how many times the callback fired. -/
inductive Action (R : Type) : Type
  | callbackA (target : String) (fired : Nat)
  | singleA (e : SingleEntry R)
  | streamA (e : StreamEntry R)
deriving DecidableEq

/-- `InvocationAction::update_with` (`src/execution/invocation.rs` lines
54–112). Only a `Completion` is accepted; the binary arm decodes the
result kind: 1 (Error) logs, 2 (Void) does nothing, 3 (NonVoid) decodes the
payload and completes; every failure branch only logs. `Except.error`
models a panic escaping `complete`. -/
def SingleEntry.update_with {R : Type} (tp : TextProtocol R)
    (dec : MPValue → Except String R) (e : SingleEntry R)
    (message : MessagePayload) (message_type : MessageType) :
    Except String (SingleEntry R) :=
  match message_type with
  | .Completion =>
    match message with
    | .Text s =>
      match tp.completionOf s with
      | some (.result r) => e.complete r
      | some _ => .ok e      -- `is_result()` false: "Cannot complete invocation" logged
      | none => .ok e        -- "Cannot parse completition" logged
    | .Binary data =>
      match parse_msgpack_message data with
      | .error _ => .ok e    -- "Cannot parse msgpack message" logged
      | .ok items =>
        match parse_completion items with
        | .error _ => .ok e  -- "Cannot parse msgpack completion" logged
        | .ok comp =>
          if comp.result_kind = 1 then .ok e        -- error message logged
          else if comp.result_kind = 2 then .ok e   -- void: no result to deliver
          else if comp.result_kind = 3 then
            match comp.payload with
            | some val =>
              match dec val with
              | .ok result => e.complete result
              | .error _ => .ok e                   -- "Cannot deserialize" logged
            | none => .ok e
          else .ok e                                -- unknown ResultKind logged
  | _ => .ok e               -- "Cannot complete invocation ... with message type" logged

/-- `EnumerableAction::update_with` (`src/execution/enumerable.rs` lines
38–86): StreamItems are decoded and pushed; a Completion closes the channel
(any binary completion; a text completion only when parseable); failures log. -/
def StreamEntry.update_with {R : Type} (tp : TextProtocol R)
    (dec : MPValue → Except String R) (e : StreamEntry R)
    (message : MessagePayload) (message_type : MessageType) : StreamEntry R :=
  match message_type with
  | .StreamItem =>
    match message with
    | .Text s =>
      match tp.streamItemOf s with
      | some item => e.push item
      | none => e            -- "Cannot update stream" logged
    | .Binary data =>
      match parse_msgpack_message data with
      | .error _ => e
      | .ok items =>
        match parse_stream_item items with
        | .error _ => e
        | .ok si =>
          match dec si.item with
          | .ok item => e.push item
          | .error _ => e
  | .Completion =>
    match message with
    | .Text s =>
      match tp.completionOf s with
      | some _ => e.close
      | none => e            -- "Cannot parse completition" logged
    | .Binary _ => e.close   -- "stream ended"
  | _ => e                   -- "Cannot update stream ... with message type" logged

/-- `UpdatableAction::update_with` dispatch over the erased entry kinds.
`CallbackAction::update_with` (`src/execution/callback.rs` lines 22–62)
invokes the stored callback on an `Invocation` and logs otherwise. -/
def Action.update_with {R : Type} (tp : TextProtocol R)
    (dec : MPValue → Except String R) (a : Action R)
    (message : MessagePayload) (message_type : MessageType) :
    Except String (Action R) :=
  match a with
  | .callbackA target fired =>
    match message_type with
    | .Invocation => .ok (.callbackA target (fired + 1))
    | _ => .ok (.callbackA target fired)   -- "Callbacks accept only invocation data" logged
  | .singleA e => (e.update_with tp dec message message_type).map .singleA
  | .streamA e => .ok (.streamA (e.update_with tp dec message message_type))

/-- The state of an entry after it is dropped (removal from the registry
drops the `Box<dyn UpdatableAction>`, running `Drop` = `dispose_internal`). -/
def Action.afterDrop {R : Type} : Action R → Action R
  | .callbackA t f => .callbackA t f
  | .singleA e => .singleA e.dispose_internal
  | .streamA e => .streamA e.dispose_internal

/-! ## Registry and dispatch (`src/execution/storage.rs`) -/

/-- Modelled from the spec: `UpdatableActionStorage` (`src/execution/mod.rs`
is not under `src/`): the single mutex-guarded table from keys (callback
targets and invocation ids) to type-erased entries, plus the monotonic
counter (spec §4.3); at most one entry per key. -/
structure Registry (R : Type) : Type where
  entries : List (String × Action R)
  counter : Nat

def Registry.lookup {R : Type} (reg : Registry R) (key : String) : Option (Action R) :=
  (reg.entries.find? fun p => p.1 == key).map Prod.snd

def Registry.countKey {R : Type} (reg : Registry R) (key : String) : Nat :=
  reg.entries.countP fun p => p.1 == key

/-- `Storage::update` on the table: applies `f` to the entry under `key` when
present (no-op otherwise), returning whether one was found; a panic inside
`f` propagates. -/
def updateEntries {R : Type} (key : String) (f : Action R → Except String (Action R)) :
    List (String × Action R) → Except String (List (String × Action R) × Bool)
  | [] => .ok ([], false)
  | (k, a) :: rest =>
    if k == key then
      match f a with
      | .ok a2 => .ok ((k, a2) :: rest, true)
      | .error msg => .error msg
    else
      match updateEntries key f rest with
      | .ok (rest2, found) => .ok ((k, a) :: rest2, found)
      | .error msg => .error msg

def Registry.update {R : Type} (reg : Registry R) (key : String)
    (f : Action R → Except String (Action R)) : Except String (Registry R × Bool) :=
  (updateEntries key f reg.entries).map fun p => (⟨p.1, reg.counter⟩, p.2)

/-- `Storage::remove`: deletes the entry under `key`; the caller drops the
returned box (`Action.afterDrop` gives its post-`Drop` state). -/
def removeEntries {R : Type} (key : String) :
    List (String × Action R) → List (String × Action R) × Option (Action R)
  | [] => ([], none)
  | (k, a) :: rest =>
    if k == key then (rest, some a)
    else
      let step := removeEntries key rest
      ((k, a) :: step.1, step.2)

def Registry.remove {R : Type} (reg : Registry R) (key : String) :
    Registry R × Option (Action R) :=
  let step := removeEntries key reg.entries
  (⟨step.1, reg.counter⟩, step.2)

/-- Storage-method call trace of one `process_message` run. -/
inductive StorageOp (R : Type) : Type
  | updated (key : String) (found : Bool)
  | removed (key : String) (dropped : Option (Action R))

/-- Target extraction of the `Invocation` arm of `process_message`
(`src/execution/storage.rs` lines 85–96). -/
def invocation_target {R : Type} (tp : TextProtocol R) :
    MessagePayload → Except String String
  | .Text s => tp.invocationTarget s
  | .Binary data => do
    let items ← parse_msgpack_message data
    let inv ← parse_invocation items
    .ok inv.target

/-- Invocation-id extraction of the `StreamItem` arm (lines 103–113). -/
def stream_item_id {R : Type} (tp : TextProtocol R) :
    MessagePayload → Except String (Option String)
  | .Text s => tp.possibleInvocationId s
  | .Binary data => do
    let items ← parse_msgpack_message data
    let si ← parse_stream_item items
    .ok (some si.invocation_id)

/-- Invocation-id extraction of the `Completion` arm (lines 122–134). -/
def completion_id {R : Type} (tp : TextProtocol R) :
    MessagePayload → Except String (Option String)
  | .Text s => tp.possibleInvocationId s
  | .Binary data => do
    let items ← parse_msgpack_message data
    let comp ← parse_completion items
    .ok (some comp.invocation_id)

/-- `Storage::process_message` (`src/execution/storage.rs` lines 80–162).
Besides the new registry it returns the trace of `update`/`remove` calls;
`Except.error` is the `?`-propagated extraction failure. The Completion arm
updates the matching entry and then removes it; Ping, Close,
StreamInvocation, CancelInvocation and Other are logged only. -/
def process_message {R : Type} (tp : TextProtocol R) (dec : MPValue → Except String R)
    (reg : Registry R) (message : MessagePayload) (message_type : MessageType) :
    Except String (Registry R × List (StorageOp R)) :=
  match message_type with
  | .Invocation =>
    match invocation_target tp message with
    | .error e => .error e
    | .ok target =>
      match reg.update target fun a => a.update_with tp dec message .Invocation with
      | .error e => .error e
      | .ok (reg2, found) => .ok (reg2, [.updated target found])
  | .StreamItem =>
    match stream_item_id tp message with
    | .error e => .error e
    | .ok none => .ok (reg, [])
    | .ok (some id) =>
      match reg.update id fun a => a.update_with tp dec message .StreamItem with
      | .error e => .error e
      | .ok (reg2, found) => .ok (reg2, [.updated id found])
  | .Completion =>
    match completion_id tp message with
    | .error e => .error e
    | .ok none => .ok (reg, [])
    | .ok (some key) =>
      match reg.update key fun a => a.update_with tp dec message .Completion with
      | .error e => .error e
      | .ok (reg2, found) =>
        let step := reg2.remove key
        .ok (step.1, [.updated key found, .removed key (step.2.map Action.afterDrop)])
  | .StreamInvocation => .ok (reg, [])
  | .CancelInvocation => .ok (reg, [])
  | .Ping => .ok (reg, [])
  | .Close => .ok (reg, [])
  | .Other => .ok (reg, [])

/-! ## Receive loop (`src/communication/client_tokio.rs` lines 140–164)

The tokio receive task handles text frames: each message's type is read by
`MessageParser::parse_message::<Ping>` (modelled from the spec as the
abstract `parseType`, `src/protocol/messages.rs` not being under `src/`);
unparseable messages and `process_message` errors are logged and skipped.
When the websocket stream terminates the disconnection handler is invoked
exactly once. -/

def receive_loop_go {R : Type} (tp : TextProtocol R) (dec : MPValue → Except String R)
    (parseType : String → Except String MessageType) (reg : Registry R) :
    List String → Registry R
  | [] => reg
  | msg :: rest =>
    match parseType msg with
    | .error _ => receive_loop_go tp dec parseType reg rest
    | .ok mt =>
      match process_message tp dec reg (.Text msg) mt with
      | .ok (reg2, _) => receive_loop_go tp dec parseType reg2 rest
      | .error _ => receive_loop_go tp dec parseType reg rest

/-- `CommunicationConnection::start_receiving`: processes the whole inbound
stream, then calls `on_connection_dropped` exactly once (the second
component counts handler invocations). -/
def start_receiving {R : Type} (tp : TextProtocol R) (dec : MPValue → Except String R)
    (parseType : String → Except String MessageType) (reg : Registry R)
    (messages : List String) : Registry R × Nat :=
  (receive_loop_go tp dec parseType reg messages, 1)

/-! ## Automatic reconnection (`src/communication/client_tokio.rs` lines 407–507)

`ClientDisconnectionHandler::on_connection_dropped` with no user handler:
bail out when locally closed, otherwise set `Reconnecting` and retry under
the policy. The registry handle `actions` is cloned into the new connection
but no entry is touched on any path. -/

def auto_reconnect_loop {R : Type} (policy : Nat → Nat → Option Nat) (elapsed : Nat → Nat)
    (attempts : Nat → Except String Unit) :
    Nat → Registry R → Nat → ConnectionState × Registry R
  | _, reg, 0 => (.NotConnected .Reconnecting, reg)
  | retry_count, reg, fuel + 1 =>
    match policy retry_count (elapsed retry_count) with
    | none => (.NotConnected .RemoteClosed, reg)
    | some _ =>
      match attempts retry_count with
      | .ok () => (.Connected, reg)
      | .error _ => auto_reconnect_loop policy elapsed attempts (retry_count + 1) reg fuel

def on_connection_dropped_auto {R : Type} (policy : Nat → Nat → Option Nat)
    (elapsed : Nat → Nat) (attempts : Nat → Except String Unit)
    (state : ConnectionState) (reg : Registry R) (fuel : Nat) :
    ConnectionState × Registry R :=
  match state with
  | .NotConnected .LocalClosed => (state, reg)
  | _ => auto_reconnect_loop policy elapsed attempts 0 reg fuel

/-! ### Registry lemmas -/

theorem updateEntries_found {R : Type} (key : String) (f : Action R → Except String (Action R))
    (a a2 : Action R) (hfa : f a = .ok a2) :
    ∀ (pre post : List (String × Action R)), (∀ p ∈ pre, p.1 ≠ key) →
      updateEntries key f (pre ++ (key, a) :: post) = .ok (pre ++ (key, a2) :: post, true) := by
  intro pre
  induction pre with
  | nil =>
    intro post _
    simp only [List.nil_append, updateEntries]
    rw [if_pos (by simp), hfa]
  | cons p pre ih =>
    intro post hpre
    obtain ⟨k0, a0⟩ := p
    have hk : ¬ (k0 == key) = true := by
      have h0 := hpre (k0, a0) (by simp)
      simpa using h0
    simp only [List.cons_append, updateEntries, List.append_eq]
    rw [if_neg hk, ih post fun q hq => hpre q (by simp [hq])]

theorem removeEntries_found {R : Type} (key : String) (a : Action R) :
    ∀ (pre post : List (String × Action R)), (∀ p ∈ pre, p.1 ≠ key) →
      removeEntries key (pre ++ (key, a) :: post) = (pre ++ post, some a) := by
  intro pre
  induction pre with
  | nil =>
    intro post _
    simp only [List.nil_append, removeEntries]
    rw [if_pos (by simp)]
  | cons p pre ih =>
    intro post hpre
    obtain ⟨k0, a0⟩ := p
    have hk : ¬ (k0 == key) = true := by
      have h0 := hpre (k0, a0) (by simp)
      simpa using h0
    simp only [List.cons_append, removeEntries, List.append_eq]
    rw [if_neg hk, ih post fun q hq => hpre q (by simp [hq])]

/-- **C1.** An inbound Completion whose invocation id matches the unique
pending entry under that id is delivered to the entry exactly once (one
`update` call, applying `update_with` to it once) and the entry is then
removed exactly once (one `remove` call; the key is afterwards absent and
the other entries are untouched). The dropped SingleInvocation is consumed
(its completer is gone) and the dropped StreamInvocation has its channel
closed. -/
theorem completion_removed_exactly_once {R : Type} (tp : TextProtocol R)
    (dec : MPValue → Except String R) (message : MessagePayload) (key : String)
    (a a2 : Action R) (pre post : List (String × Action R)) (counter : Nat)
    (hid : completion_id tp message = .ok (some key))
    (hupd : a.update_with tp dec message .Completion = .ok a2)
    (hpre : ∀ p ∈ pre, p.1 ≠ key) (hpost : ∀ p ∈ post, p.1 ≠ key) :
    process_message tp dec ⟨pre ++ (key, a) :: post, counter⟩ message .Completion =
      .ok (⟨pre ++ post, counter⟩,
        [.updated key true, .removed key (some a2.afterDrop)]) ∧
    Registry.countKey ⟨pre ++ post, counter⟩ key = 0 ∧
    (∀ e, a2 = .singleA e →
      ∃ e2, a2.afterDrop = .singleA e2 ∧ e2.completerPresent = false) ∧
    (∀ e, a2 = .streamA e →
      ∃ e2, a2.afterDrop = .streamA e2 ∧ e2.closed = true) := by
  refine ⟨?_, ?_, ?_, ?_⟩
  · have hu := updateEntries_found key
      (fun x => Action.update_with tp dec x message .Completion) a a2 hupd pre post hpre
    have hr := removeEntries_found key a2 pre post hpre
    simp only [process_message, hid, Registry.update, hu, Except.map, Registry.remove, hr,
      Option.map]
  · rw [Registry.countKey]
    rw [List.countP_eq_zero]
    intro p hp
    rcases List.mem_append.mp hp with h | h
    · simpa using hpre p h
    · simpa using hpost p h
  · intro e he
    subst he
    refine ⟨_, rfl, ?_⟩
    rw [SingleEntry.dispose_internal]
    by_cases hc : e.completerPresent
    · rw [if_pos hc]
    · rw [if_neg hc]
      simpa using hc
  · intro e he
    subst he
    exact ⟨_, rfl, rfl⟩

/-- Trivial text protocol (this client talks MessagePack in the binary
scenarios below; text parses are never consulted there). -/
def tpTrivial : TextProtocol Nat :=
  ⟨fun _ => .error "unsupported", fun _ => .ok none, fun _ => none, fun _ => none⟩

/-- A concrete `value_to_type::<u64>`-style decoder for witnesses. -/
def decNat : MPValue → Except String Nat
  | .int i => if 0 ≤ i then .ok i.toNat else .error "negative"
  | _ => .error "not an integer"

/-- Witness for C1: a registry holding one pending SingleInvocation under
`SingleEntity_0`, receiving a NonVoid binary Completion carrying 7. -/
theorem completion_removed_exactly_once_witness :
    process_message tpTrivial decNat
        ⟨[("SingleEntity_0", .singleA ⟨"SingleEntity_0", true, .Incomplete⟩)], 1⟩
        (.Binary (.array [.int 3, .map [], .str "SingleEntity_0", .int 3, .int 7]))
        .Completion =
      .ok (⟨[], 1⟩,
        [.updated "SingleEntity_0" true,
         .removed "SingleEntity_0"
           (some (.singleA ⟨"SingleEntity_0", false, .Complete (some 7)⟩))]) :=
  (completion_removed_exactly_once tpTrivial decNat
    (.Binary (.array [.int 3, .map [], .str "SingleEntity_0", .int 3, .int 7]))
    "SingleEntity_0" (.singleA ⟨"SingleEntity_0", true, .Incomplete⟩)
    (.singleA ⟨"SingleEntity_0", false, .Complete (some 7)⟩) [] [] 1
    rfl rfl (by simp) (by simp)).1

/-! ### C2: result-kind handling of a Completion for a SingleInvocation -/

/-- **C2 (amended).** On a pending SingleInvocation (completer present,
waiter parked or not yet polled), the binary result kinds behave as the code
does: an Error (1) completion only logs the server message, leaving the
completer untouched (it is cancelled, without the message, when the entry is
dropped after removal — last conjunct); a Void (2) completion delivers
nothing; a NonVoid (3) completion with a decodable payload consumes the
completer and delivers the decoded value to the waiter's shared state. -/
theorem completion_result_kind_behavior {R : Type} (tp : TextProtocol R)
    (dec : MPValue → Except String R) (id : String) (sh : FState R)
    (hsh : sh = .Incomplete ∨ ∃ w, sh = .Waiting w)
    (headers merr payloadE : MPValue) (v : R) (hdec : dec payloadE = .ok v) :
    SingleEntry.update_with tp dec ⟨id, true, sh⟩
        (.Binary (.array [.int 3, headers, .str id, .int 1, merr])) .Completion =
      .ok ⟨id, true, sh⟩ ∧
    SingleEntry.update_with tp dec ⟨id, true, sh⟩
        (.Binary (.array [.int 3, headers, .str id, .int 2])) .Completion =
      .ok ⟨id, true, sh⟩ ∧
    SingleEntry.update_with tp dec ⟨id, true, sh⟩
        (.Binary (.array [.int 3, headers, .str id, .int 3, payloadE])) .Completion =
      .ok ⟨id, false, .Complete (some v)⟩ ∧
    Action.afterDrop (R := R) (.singleA ⟨id, true, sh⟩) =
      .singleA ⟨id, false, .Complete none⟩ := by
  refine ⟨rfl, rfl, ?_, rfl⟩
  have hstep : SingleEntry.update_with tp dec ⟨id, true, sh⟩
      (.Binary (.array [.int 3, headers, .str id, .int 3, payloadE])) .Completion =
      (match dec payloadE with
       | .ok result => SingleEntry.complete ⟨id, true, sh⟩ result
       | .error _ => .ok ⟨id, true, sh⟩) := rfl
  rw [hstep, hdec]
  rcases hsh with h | ⟨w, h⟩ <;> subst h <;> rfl

/-- **C2 counterexample.** The claim requires a Void completion to deliver
the default/unit value to the waiter (completer consumed, shared state
`Complete (some default)`), and an Error completion to cancel the completer
carrying the server message. At this concrete input the Void completion
leaves the entry untouched — the completer is still present and the shared
state still `Incomplete`: nothing is delivered. -/
theorem completion_void_counterexample :
    SingleEntry.update_with tpTrivial decNat ⟨"inv_1", true, .Incomplete⟩
        (.Binary (.array [.int 3, .map [], .str "inv_1", .int 2])) .Completion =
      .ok ⟨"inv_1", true, .Incomplete⟩ ∧
    (⟨"inv_1", true, .Incomplete⟩ : SingleEntry Nat) ≠
      ⟨"inv_1", false, .Complete (some 0)⟩ :=
  ⟨rfl, by decide⟩

/-- Witness for the amended C2 at concrete inputs (a waiter parked with
waker 3, payload 7 decoded by `decNat`). -/
theorem completion_result_kind_behavior_witness :
    SingleEntry.update_with tpTrivial decNat ⟨"inv_2", true, .Waiting 3⟩
        (.Binary (.array [.int 3, .map [], .str "inv_2", .int 3, .int 7])) .Completion =
      .ok ⟨"inv_2", false, .Complete (some 7)⟩ :=
  (completion_result_kind_behavior tpTrivial decNat "inv_2" (.Waiting 3)
    (Or.inr ⟨3, rfl⟩) (.map []) .nil (.int 7) 7 rfl).2.2.1

/-! ### C4: Close messages -/

/-- **C4 (amended).** A Close message is logged and otherwise ignored by
`process_message` (both protocols): it returns Ok with the registry
unchanged and performs no storage operation — in particular it surfaces no
transport-drop event. The receive loop continues past a Close message, and
the disconnection handler runs exactly once, when the inbound stream itself
terminates. -/
theorem close_logged_and_ignored {R : Type} (tp : TextProtocol R)
    (dec : MPValue → Except String R) (reg : Registry R) (s : String) (d : MPValue)
    (parseType : String → Except String MessageType) (rest : List String)
    (hclose : parseType s = .ok .Close) :
    process_message tp dec reg (.Text s) .Close = .ok (reg, []) ∧
    process_message tp dec reg (.Binary d) .Close = .ok (reg, []) ∧
    receive_loop_go tp dec parseType reg (s :: rest) =
      receive_loop_go tp dec parseType reg rest ∧
    (start_receiving tp dec parseType reg (s :: rest)).2 = 1 := by
  refine ⟨rfl, rfl, ?_, rfl⟩
  simp only [receive_loop_go, hclose, process_message]

/-- Concrete text protocol for the Close scenario: every inbound Invocation
targets the registered callback `cb`. -/
def tpClose : TextProtocol Nat :=
  ⟨fun _ => .ok "cb", fun _ => .ok none, fun _ => none, fun _ => none⟩

/-- A registry holding one registered callback. -/
def regClose : Registry Nat := ⟨[("cb", .callbackA "cb" 0)], 0⟩

/-- Type extraction for the Close scenario frames. -/
def parseTypeClose (s : String) : Except String MessageType :=
  if s = "close-frame" then .ok .Close else .ok .Invocation

/-- **C4 counterexample.** The claim requires a Close message to trigger the
same disconnection handling as a transport loss. At this concrete input,
`process_message` on the Close returns Ok with no storage operation and the
registry unchanged, and the receive loop continues past the Close,
delivering the following invocation to the registered callback — the Close
was logged and ignored, not surfaced as a transport drop. -/
theorem close_ignored_counterexample :
    process_message tpClose decNat regClose (.Text "close-frame") .Close =
      .ok (regClose, []) ∧
    receive_loop_go tpClose decNat parseTypeClose regClose
        ["close-frame", "inv-frame"] =
      ⟨[("cb", .callbackA "cb" 1)], 0⟩ :=
  ⟨rfl, rfl⟩

/-- Witness for the amended C4 at concrete inputs. -/
theorem close_logged_and_ignored_witness :
    process_message tpClose decNat regClose (.Text "close-frame") .Close =
      .ok (regClose, []) ∧
    process_message tpClose decNat regClose (.Binary .nil) .Close =
      .ok (regClose, []) ∧
    receive_loop_go tpClose decNat parseTypeClose regClose ["close-frame"] =
      receive_loop_go tpClose decNat parseTypeClose regClose [] ∧
    (start_receiving tpClose decNat parseTypeClose regClose ["close-frame"]).2 = 1 :=
  close_logged_and_ignored tpClose decNat regClose "close-frame" .nil
    parseTypeClose [] rfl

/-! ### C3: registry across an automatic reconnect -/

theorem auto_reconnect_loop_registry {R : Type} (policy : Nat → Nat → Option Nat)
    (elapsed : Nat → Nat) (attempts : Nat → Except String Unit) :
    ∀ (fuel retry : Nat) (reg : Registry R),
      (auto_reconnect_loop policy elapsed attempts retry reg fuel).2 = reg := by
  intro fuel
  induction fuel with
  | zero => intro retry reg; rfl
  | succ fuel ih =>
    intro retry reg
    simp only [auto_reconnect_loop]
    rcases policy retry (elapsed retry) with _ | d
    · rfl
    · cases ha : attempts retry with
      | ok u => cases u; rfl
      | error e => exact ih (retry + 1) reg

/-- **C3 (amended).** Across a successful automatic reconnection (transport
loss in a non-locally-closed state, policy granting a first retry that
succeeds), the controller promotes the new connection to `Connected` and the
registry passes through completely untouched: every callback registration is
preserved (and keeps receiving inbound invocations through the same table),
and every pending SingleInvocation/StreamInvocation entry is preserved
unchanged as well — neither replayed nor cancelled. -/
theorem auto_reconnect_preserves_registry {R : Type} (policy : Nat → Nat → Option Nat)
    (elapsed : Nat → Nat) (attempts : Nat → Except String Unit)
    (state : ConnectionState) (reg : Registry R) (fuel : Nat) (d : Nat)
    (hstate : state ≠ .NotConnected .LocalClosed)
    (hp : policy 0 (elapsed 0) = some d) (ha : attempts 0 = .ok ())
    (hfuel : 1 ≤ fuel) :
    on_connection_dropped_auto policy elapsed attempts state reg fuel =
      (.Connected, reg) ∧
    (∀ fuel2 retry, (auto_reconnect_loop policy elapsed attempts retry reg fuel2).2 = reg) := by
  refine ⟨?_, fun fuel2 retry => auto_reconnect_loop_registry policy elapsed attempts fuel2 retry reg⟩
  obtain ⟨fuel, rfl⟩ : ∃ k, fuel = k + 1 := ⟨fuel - 1, by omega⟩
  have hloop : auto_reconnect_loop (R := R) policy elapsed attempts 0 reg (fuel + 1) =
      (.Connected, reg) := by
    simp only [auto_reconnect_loop, hp, ha]
  rcases state with r | _
  · rcases r with _ | _ | _ | _
    · exact hloop
    · exact absurd rfl hstate
    · exact hloop
    · exact hloop
  · exact hloop

/-- A registry holding one registered callback and one pending
SingleInvocation with a live completer. -/
def regPend : Registry Nat :=
  ⟨[("cb", .callbackA "cb" 0),
    ("SingleEntity_0", .singleA ⟨"SingleEntity_0", true, .Incomplete⟩)], 1⟩

/-- **C3 counterexample.** The claim requires every pending entry to be
cancelled (completer dropped or cancelled) when the new connection is
promoted to `Connected`. At this concrete input the automatic reconnection
succeeds, yet the pending entry afterwards still holds its completer
(`completerPresent = true`) with the waiter's shared state still
`Incomplete` — it was not cancelled (a cancelled entry would be
`completerPresent = false` with shared state `Complete none`). -/
theorem auto_reconnect_counterexample :
    on_connection_dropped_auto (fun _ _ => some 10) (fun _ => 0) (fun _ => .ok ())
        (.NotConnected .RemoteClosed) regPend 5 = (.Connected, regPend) ∧
    (on_connection_dropped_auto (fun _ _ => some 10) (fun _ => 0) (fun _ => .ok ())
        (.NotConnected .RemoteClosed) regPend 5).2.lookup "SingleEntity_0" =
      some (.singleA ⟨"SingleEntity_0", true, .Incomplete⟩) ∧
    (Action.singleA (⟨"SingleEntity_0", true, .Incomplete⟩ : SingleEntry Nat)) ≠
      .singleA ⟨"SingleEntity_0", false, .Complete none⟩ :=
  ⟨rfl, rfl, by decide⟩

/-- Witness for the amended C3: concrete policy, one successful attempt,
registry with a callback and a pending invocation preserved verbatim. -/
theorem auto_reconnect_preserves_registry_witness :
    on_connection_dropped_auto (fun _ _ => some 10) (fun _ => 0) (fun _ => .ok ())
        (.NotConnected .RemoteClosed) regPend 5 = (.Connected, regPend) :=
  (auto_reconnect_preserves_registry (fun _ _ => some 10) (fun _ => 0) (fun _ => .ok ())
    (.NotConnected .RemoteClosed) regPend 5 10 (by intro h; cases h) rfl rfl
    (by norm_num)).1

end SignalR
